/-
Verification of the `buildFiles` module of the vite-plugin-build package
(src/packages/vite-plugin-build/src/buildFiles.ts).

The TypeScript source is shallowly embedded:
* JavaScript strings become `String` (reasoned about through their `List Char`
  field `data`);
* `String.prototype.replace(pat, rep)` with a string pattern (replace the
  leftmost occurrence; an empty pattern inserts at the start) becomes
  `replaceFirstL`;
* the regex replace `.replace(/[^\x2f]*\x2f/, '')` (drop everything up to and
  including the first separator, identity when there is no separator) becomes
  `stripRootL`;
* Node's `path.extname`, `path.basename`, `path.dirname`, `path.normalize`
  and `path.resolve` (posix flavour, as on the CI platform) become
  `extnameL`, `basenameL`, `dirnameL`, `jsNormalizeL`, `jsResolveL`,
  transcribed from Node's `normalizeString`-based implementations;
* `process.cwd()` is an explicit `cwd` parameter;
* vite's `mergeConfig` (deep merge, override wins on scalars, arrays are
  concatenated) becomes `mergeBuildOptions` on the typed fragment of the
  config that `createBuildConfig` produces;
* the external bundler and the `run-in-task-pool` collaborator are modelled
  through their specified interfaces: a per-(file, format, outDir) success
  predicate `ok`, and a pool that records per-item failures without stopping
  the remaining items (`runPool`), driving the process-wide `incrementCount`
  exactly where `transformFile` / `buildFiles` do.
-/
import Mathlib

namespace BuildFiles

/-! ### Character-list primitives for the JavaScript string operations -/

/-- Split a character list at every `/`, keeping empty segments, as
`"a/b".split('/')` would. `splitSlash []` is `[[]]` (one empty segment). -/
def splitSlash : List Char → List (List Char)
  | [] => [[]]
  | c :: s =>
    if c = '/' then [] :: splitSlash s
    else
      match splitSlash s with
      | [] => [[c]]
      | t :: ts => (c :: t) :: ts

/-- Join segments with `/` separators (inverse of `splitSlash`). -/
def joinSegs : List (List Char) → List Char
  | [] => []
  | [s] => s
  | s :: rest => s ++ '/' :: joinSegs rest

/-- Scanning worker of `replaceFirstL` for a non-empty pattern: find the
leftmost occurrence of `pat` and replace it with `rep`; if there is none,
return the list unchanged. -/
def replaceFirstGo (pat rep : List Char) : List Char → List Char
  | [] => []
  | c :: s =>
    if pat <+: (c :: s) then rep ++ (c :: s).drop pat.length
    else c :: replaceFirstGo pat rep s

/-- JavaScript `String.prototype.replace` with a plain-string pattern:
replace the leftmost occurrence of `pat` by `rep`; with the empty pattern
the replacement is inserted at the start (`"abc".replace("", "X") = "Xabc"`). -/
def replaceFirstL (pat rep s : List Char) : List Char :=
  if pat = [] then rep ++ s else replaceFirstGo pat rep s

/-- The basename scanned by Node's posix `path.extname`: the last component
after dropping trailing separators. -/
def extBasename (p : List Char) : List Char :=
  ((p.reverse.dropWhile fun c => c == '/').takeWhile fun c => c != '/').reverse

/-- The characters of that basename strictly after its last dot (empty when
the basename ends in a dot or has no dot; equals the whole basename when
there is no dot). -/
def extAfterDot (p : List Char) : List Char :=
  ((extBasename p).reverse.takeWhile fun c => c != '.').reverse

/-- Node's posix `path.extname`: the suffix of the basename from its last
dot, except that a basename without a dot, a basename whose only dot is its
first character (dotfiles), and the special component `..` give `""`. -/
def extnameL (p : List Char) : List Char :=
  if (extAfterDot p).length = (extBasename p).length then []
  else if (extBasename p).length - (extAfterDot p).length - 1 = 0 then []
  else if extBasename p = ['.', '.'] then []
  else (extBasename p).drop ((extBasename p).length - (extAfterDot p).length - 1)

/-- The regex replace `.replace(/[^\x2f]*\x2f/, '')` from `transformFile`:
drop everything up to and including the first `/`; a string with no `/` is
returned unchanged (the regex does not match). -/
def stripRootL (p : List Char) : List Char :=
  if p.any fun c => c == '/' then (p.dropWhile fun c => c != '/').tail else p

/-- Node's posix `path.basename` (no extension argument): the last component
after dropping trailing separators. -/
def basenameL (p : List Char) : List Char :=
  ((p.reverse.dropWhile fun c => c == '/').takeWhile fun c => c != '/').reverse

/-- Node's posix `path.dirname`, transcribed from its index scan: drop the
trailing separators and the last component; special cases for root-only and
for the `//` prefix. -/
def dirnameL (p : List Char) : List Char :=
  if p = [] then ['.']
  else
    let hasRoot : Bool := p.head? == some '/'
    let rev2 := ((p.reverse.dropWhile fun c => c == '/').dropWhile fun c => c != '/')
    if rev2.length ≤ 1 then (if hasRoot then ['/'] else ['.'])
    else if hasRoot && rev2.length == 2 then ['/', '/']
    else p.take (rev2.length - 1)

/-- Node's `normalizeString` on already-split segments: drop empty and `.`
segments, resolve `..` against the accumulator; `allowAbove` keeps leading
`..` segments (relative paths) instead of discarding them (absolute paths).
The accumulator is kept reversed. -/
def normSegs (allowAbove : Bool) : List (List Char) → List (List Char) → List (List Char)
  | acc, [] => acc.reverse
  | acc, s :: rest =>
    if s = [] ∨ s = ['.'] then normSegs allowAbove acc rest
    else if s = ['.', '.'] then
      match acc with
      | [] => if allowAbove then normSegs allowAbove [['.', '.']] rest
              else normSegs allowAbove [] rest
      | t :: acc' =>
        if t = ['.', '.'] then
          (if allowAbove then normSegs allowAbove (s :: t :: acc') rest
           else normSegs allowAbove (t :: acc') rest)
        else normSegs allowAbove acc' rest
    else normSegs allowAbove (s :: acc) rest

/-- Node's posix `path.normalize`. -/
def jsNormalizeL (p : List Char) : List Char :=
  if p = [] then ['.']
  else
    let isAbs : Bool := p.head? == some '/'
    let trail : Bool := p.getLast? == some '/'
    let body := joinSegs (normSegs (!isAbs) [] (splitSlash p))
    if body = [] then (if isAbs then ['/'] else if trail then ['.', '/'] else ['.'])
    else ((if isAbs then '/' :: body else body) ++ (if trail then ['/'] else []))

/-- The right-to-left accumulation loop of Node's posix `path.resolve`:
concatenate path arguments from the right until one is absolute, skipping
empty arguments; returns the raw joined path and whether it is absolute. -/
def jsResolveGo : List (List Char) → List Char × Bool
  | [] => ([], false)
  | p :: ps =>
    let r := jsResolveGo ps
    if r.2 then r
    else if p = [] then r
    else (p ++ '/' :: r.1, p.head? == some '/')

/-- Node's posix `path.resolve(cwd-implicit, ...paths)` with the working
directory passed explicitly as `cwd`. -/
def jsResolveL (cwd : List Char) (paths : List (List Char)) : List Char :=
  let r := jsResolveGo (cwd :: paths)
  let body := joinSegs (normSegs (!r.2) [] (splitSlash r.1))
  if r.2 then '/' :: body
  else if body = [] then ['.'] else body

/-! ### String-level wrappers (the names follow the TypeScript source) -/

/-- JavaScript `s.includes(sub)`: substring containment. -/
def jsIncludes (s sub : String) : Bool := decide (sub.data <:+: s.data)

/-- `path.extname` on strings. -/
def jsExtname (p : String) : String := ⟨extnameL p.data⟩

/-- `path.basename` on strings. -/
def jsBasename (p : String) : String := ⟨basenameL p.data⟩

/-- `path.dirname` on strings. -/
def jsDirname (p : String) : String := ⟨dirnameL p.data⟩

/-- `path.normalize` on strings. -/
def jsNormalize (p : String) : String := ⟨jsNormalizeL p.data⟩

/-- `path.resolve` on strings, with the working directory explicit. -/
def jsResolve (cwd : String) (paths : List String) : String :=
  ⟨jsResolveL cwd.data (paths.map String.data)⟩

/-- `fileRelativePath.replace(/[^\x2f]*\x2f/, '')` on strings. -/
def stripRoot (p : String) : String := ⟨stripRootL p.data⟩

/-- JavaScript `s.replace(pat, rep)` (string pattern) on strings. -/
def jsReplace (s pat rep : String) : String := ⟨replaceFirstL pat.data rep.data s.data⟩

/-- The path-transform resolver of `transformFile` (buildFiles.ts lines
38-45): strip the first path segment; for `.vue` / `.svelte` inputs append
`.js` to the whole stripped path, otherwise replace (the first occurrence
of) the extension substring with `.js`. -/
def transformFilePath (fileRelativePath : String) : String :=
  if jsExtname fileRelativePath = ".vue" ∨ jsExtname fileRelativePath = ".svelte" then
    stripRoot fileRelativePath ++ ".js"
  else
    jsReplace (stripRoot fileRelativePath) (jsExtname fileRelativePath) ".js"

/-- `isVueTempFile` (buildFiles.ts lines 10-17). -/
def isVueTempFile (filePath : String) : Bool :=
  jsIncludes filePath "?vue" && jsIncludes filePath "lang."

/-- The default external classifier built by `transformFile` when the caller
supplies no `rollupOptionsExternal` (buildFiles.ts lines 51-82, with
`rollupOptionsExternal` undefined). `importer` and `isResolved` are accepted
and ignored, as in the source closure. -/
def lastRollupOptionsExternalDefault (cwd fileRelativePath : String)
    (id : String) (_importer : Option String) (_isResolved : Option Bool) : Bool :=
  if jsIncludes id ".json"
      || (jsIncludes id ".sass" || jsIncludes id ".scss" || jsIncludes id ".less"
            || jsIncludes id ".css" || jsIncludes id ".svg")
      || isVueTempFile id
      || decide (jsNormalize id = jsResolve cwd [fileRelativePath]) then
    false
  else
    true

/-- Path components (split at `/`) of a string, for stating where a segment
does or does not occur in a path. -/
def components (s : String) : List String := (splitSlash s.data).map String.mk

/-- The first (root) segment of a relative path: everything before the first
separator. -/
def rootSeg (p : String) : String := ⟨p.data.takeWhile fun c => c != '/'⟩

/-! ### Format specs, dispatch, and the synthesized build configuration -/

/-- A `Format` entry of `BuildFilesOptions`: a bare tag string or an explicit
`{ format, outDir }` object. -/
inductive JsFormat where
  | tag (s : String)
  | spec (format : String) (outDir : String)
deriving DecidableEq

/-- The dispatch-time normalization of buildFiles.ts lines 166-168:
`if (typeof format === 'string') format = { format, outDir: format }`.
Returns the `(format, outDir)` pair handed to `lastBuild`. -/
def normalizeFormat : JsFormat → String × String
  | .tag s => (s, s)
  | .spec f d => (f, d)

/-- The `outputFilePath` annotation written onto every bundler output record
(buildFiles.ts line 154): `` `${options.outputDir}/${transformFilePath}` ``. -/
def annotatedOutputFilePath (outputDir tfp : String) : String :=
  outputDir ++ "/" ++ tfp

/-- The build units dispatched by `transformFile` (buildFiles.ts lines
163-173) for a format list: one `(format, annotated destination path)` per
entry, in order. (The source's `.filter(Boolean)` filters an array of
promises, which are always truthy, so it never removes a unit.) -/
def dispatchUnits (formats : List JsFormat) (fileRelativePath : String) :
    List (String × String) :=
  formats.map fun fo =>
    ((normalizeFormat fo).1,
      annotatedOutputFilePath (normalizeFormat fo).2 (transformFilePath fileRelativePath))

/-- The rollup output-options record, restricted to the fields
`createBuildConfig` writes; absent fields are `none`, matching JavaScript
object-spread semantics. -/
structure JsOutputOptions where
  entryFileNames : Option String := none
  format : Option String := none
  indent : Option Bool := none
  assetFileNames : Option String := none
  inlineDynamicImports : Option Bool := none
  dir : Option String := none
deriving DecidableEq

/-- JavaScript object spread `{ ...base, ...caller }`: a field present on
`caller` overrides the one on `base`. -/
def spreadOutput (base caller : JsOutputOptions) : JsOutputOptions :=
  { entryFileNames := caller.entryFileNames <|> base.entryFileNames
    format := caller.format <|> base.format
    indent := caller.indent <|> base.indent
    assetFileNames := caller.assetFileNames <|> base.assetFileNames
    inlineDynamicImports := caller.inlineDynamicImports <|> base.inlineDynamicImports
    dir := caller.dir <|> base.dir }

/-- The single output-options object of buildFiles.ts lines 106-114: the
five structural fields, then the caller's `lastRollupOptionsOutput` spread
over them, then `dir` set unconditionally to
`path.dirname(path.resolve(outputDir, transformFilePath))`. -/
def synthesizedOutput (cwd outputDir tfp fmt : String)
    (callerOut : JsOutputOptions) : JsOutputOptions :=
  let base : JsOutputOptions :=
    { entryFileNames := some (jsBasename tfp)
      format := some fmt
      indent := some false
      assetFileNames := some "[name].[ext]"
      inlineDynamicImports := some true }
  { spreadOutput base callerOut with
      dir := some (jsDirname (jsResolve cwd [outputDir, tfp])) }

/-- The `rollupOptions` fragment that participates in the merge. (The
`external` classifier is a function value; vite's merge would let a caller
replace it, but no claim concerns that field, so it is kept out of the
record.) -/
structure JsRollupOptions where
  output : Option (List JsOutputOptions) := none
deriving DecidableEq

/-- The vite `BuildOptions` fragment synthesized by `createBuildConfig` and
overridable through the caller's `buildOptions`. -/
structure JsBuildOptions where
  assetsDir : Option String := none
  cssCodeSplit : Option Bool := none
  emptyOutDir : Option Bool := none
  minify : Option Bool := none
  rollupOptions : Option JsRollupOptions := none
deriving DecidableEq

/-- vite `mergeConfig` on the `rollupOptions` object: the `output` arrays of
both sides are concatenated (vite concatenates whenever either side is an
array), otherwise the present side wins. -/
def mergeRollupOptions (a b : JsRollupOptions) : JsRollupOptions :=
  { output :=
      match a.output, b.output with
      | some oa, some ob => some (oa ++ ob)
      | some oa, none => some oa
      | none, ob => ob }

/-- vite `mergeConfig defaults overrides` on the build-options fragment:
scalar fields are overridden when present on `overrides`, the nested
`rollupOptions` objects are merged recursively. -/
def mergeBuildOptions (a b : JsBuildOptions) : JsBuildOptions :=
  { assetsDir := b.assetsDir <|> a.assetsDir
    cssCodeSplit := b.cssCodeSplit <|> a.cssCodeSplit
    emptyOutDir := b.emptyOutDir <|> a.emptyOutDir
    minify := b.minify <|> a.minify
    rollupOptions :=
      match a.rollupOptions, b.rollupOptions with
      | some ra, some rb => some (mergeRollupOptions ra rb)
      | some ra, none => some ra
      | none, rb => rb }

/-- A caller option that may be a plain value or a function of a path, as
`buildOptions` and `rollupOptionsOutput` are. -/
inductive FnOrVal (α : Type) where
  | val (a : α)
  | fn (f : String → α)

/-- Resolve a function-or-value option at its argument
(`typeof x === 'function' ? x(arg) : x`). -/
def FnOrVal.resolve {α : Type} : FnOrVal α → String → α
  | .val a, _ => a
  | .fn f, s => f s

/-- `createBuildConfig` (buildFiles.ts lines 89-127), restricted to the
`build` fragment the claims concern: the fixed structural settings together
with the synthesized output record, merged with the caller's resolved
`buildOptions` through vite's `mergeConfig`. A missing caller option behaves
as the empty object, as spreading/merging `undefined` does. -/
def createBuildConfig (cwd fileRelativePath : String)
    (buildOptions : Option (FnOrVal JsBuildOptions))
    (rollupOptionsOutput : Option (FnOrVal JsOutputOptions))
    (outputDir fmt : String) : JsBuildOptions :=
  let tfp := transformFilePath fileRelativePath
  let lastBuildOptions := (buildOptions.map fun f => f.resolve fileRelativePath).getD {}
  let lastRollupOptionsOutput := (rollupOptionsOutput.map fun f => f.resolve tfp).getD {}
  mergeBuildOptions
    { assetsDir := some "./"
      cssCodeSplit := some true
      emptyOutDir := some false
      rollupOptions :=
        some { output := some [synthesizedOutput cwd outputDir tfp fmt lastRollupOptionsOutput] }
      minify := some false }
    lastBuildOptions

/-! ### The batch orchestrator -/

/-- Observable callback/diagnostic events of one `buildFiles` run. -/
inductive BatchEvent where
  | startBuild (totalFilesCount : Nat)
  | fileSuccess (incrementCount : Nat) (fileRelativePath : String)
  | redLine
  | endBuild (totalFilesCount : Nat)
deriving DecidableEq

/-- Whether one file's build unit succeeds: `transformFile` awaits
`Promise.all` over every requested format, so the unit resolves exactly when
the bundler succeeds for every normalized `(format, outDir)` pair. The
bundler collaborator is abstracted as the predicate
`ok file format outDir`. -/
def unitOk (formats : List JsFormat) (ok : String → String → String → Bool)
    (file : String) : Bool :=
  formats.all fun fo => ok file (normalizeFormat fo).1 (normalizeFormat fo).2

/-- The bounded task pool driving `transformFile` per file in submission
order, under the pool contract of run-in-task-pool: a failing item is
recorded (`hasPartialError`) and does not stop the remaining items. A
successful unit increments the process-wide counter and emits the per-file
success callback with the incremented count (buildFiles.ts lines 175-176);
a failing unit does neither. Returns
(final counter, events, hasPartialError). -/
def runPool (formats : List JsFormat) (ok : String → String → String → Bool) :
    List String → Nat → Nat × List BatchEvent × Bool
  | [], c => (c, [], false)
  | f :: fs, c =>
    if unitOk formats ok f then
      let r := runPool formats ok fs (c + 1)
      (r.1, BatchEvent.fileSuccess (c + 1) f :: r.2.1, r.2.2)
    else
      let r := runPool formats ok fs c
      (r.1, r.2.1, true)

/-- `buildFiles` (buildFiles.ts lines 290-307) after file discovery: reset
the process-wide counter, fire the batch-start callback, drain the pool,
emit the red diagnostic when the pool reports a partial error, fire the
batch-end callback with the final counter, and reset the counter again.
`_c0` is the inherited process-wide counter value; the initial reset
discards it. Returns (process counter after the run, events). -/
def buildFilesRun (files : List String) (formats : List JsFormat)
    (ok : String → String → String → Bool) (_c0 : Nat) : Nat × List BatchEvent :=
  let r := runPool formats ok files 0
  (0,
    BatchEvent.startBuild files.length :: r.2.1
      ++ (if r.2.2 then [BatchEvent.redLine] else [])
      ++ [BatchEvent.endBuild r.1])

/-! ### Supporting lemmas -/

/-- Merging any caller `buildOptions` into a base whose `rollupOptions.output`
array starts with `o` yields a config whose `rollupOptions.output` array
still starts with `o`: vite concatenates output arrays, it never replaces
or rewrites their elements. -/
theorem mergeBuildOptions_output_head (a b : JsBuildOptions) (o : JsOutputOptions)
    (oa : List JsOutputOptions)
    (ha : a.rollupOptions = some { output := some (o :: oa) }) :
    ∃ ru rest, (mergeBuildOptions a b).rollupOptions = some ru
      ∧ ru.output = some (o :: rest) := by
  rcases hb : b.rollupOptions with _ | rb
  · exact ⟨{ output := some (o :: oa) }, oa, by simp [mergeBuildOptions, ha, hb], rfl⟩
  · rcases ho : rb.output with _ | ob
    · exact ⟨mergeRollupOptions { output := some (o :: oa) } rb, oa,
        by simp [mergeBuildOptions, ha, hb], by simp [mergeRollupOptions, ho]⟩
    · exact ⟨mergeRollupOptions { output := some (o :: oa) } rb, oa ++ ob,
        by simp [mergeBuildOptions, ha, hb], by simp [mergeRollupOptions, ho]⟩

/-- The pool's final counter is the entry counter plus the number of
successful units. -/
theorem runPool_count (formats : List JsFormat) (ok : String → String → String → Bool) :
    ∀ (files : List String) (c : Nat),
      (runPool formats ok files c).1 = c + files.countP (unitOk formats ok) := by
  intro files
  induction files with
  | nil => intro c; simp [runPool]
  | cons f fs ih =>
    intro c
    cases h : unitOk formats ok f
    · simp [runPool, h, ih, List.countP_cons]
    · simp [runPool, h, ih, List.countP_cons]
      omega

/-- Every successful unit emits a per-file success event, whatever other
units fail. -/
theorem runPool_success_mem (formats : List JsFormat) (ok : String → String → String → Bool) :
    ∀ (files : List String) (c : Nat) (f : String), f ∈ files →
      unitOk formats ok f = true →
      ∃ n, BatchEvent.fileSuccess n f ∈ (runPool formats ok files c).2.1 := by
  intro files
  induction files with
  | nil => intro c f hf _; exact absurd hf (List.not_mem_nil f)
  | cons g fs ih =>
    intro c f hf hok
    rcases List.mem_cons.mp hf with rfl | hf'
    · exact ⟨c + 1, by simp [runPool, hok]⟩
    · cases h : unitOk formats ok g
      · obtain ⟨n, hn⟩ := ih c f hf' hok
        exact ⟨n, by simp only [runPool, h]; simpa using hn⟩
      · obtain ⟨n, hn⟩ := ih (c + 1) f hf' hok
        refine ⟨n, ?_⟩
        simp only [runPool, h]
        exact List.mem_cons_of_mem _ (by simpa using hn)

/-- The pool reports a partial error exactly when some unit fails. -/
theorem runPool_err (formats : List JsFormat) (ok : String → String → String → Bool) :
    ∀ (files : List String) (c : Nat),
      (runPool formats ok files c).2.2 = files.any fun g => !unitOk formats ok g := by
  intro files
  induction files with
  | nil => intro c; simp [runPool]
  | cons f fs ih =>
    intro c
    cases h : unitOk formats ok f <;> simp [runPool, h, ih]

/-- The pool emits only per-file success events (the red diagnostic and the
lifecycle callbacks come from the orchestrator, not from the pool). -/
theorem runPool_events_are_success (formats : List JsFormat)
    (ok : String → String → String → Bool) :
    ∀ (files : List String) (c : Nat) (e : BatchEvent),
      e ∈ (runPool formats ok files c).2.1 →
      ∃ n g, e = BatchEvent.fileSuccess n g := by
  intro files
  induction files with
  | nil => intro c e he; simp [runPool] at he
  | cons f fs ih =>
    intro c e he
    cases h : unitOk formats ok f
    · simp only [runPool, h] at he
      exact ih c e (by simpa using he)
    · simp only [runPool, h] at he
      rcases List.mem_cons.mp (by simpa using he) with rfl | he'
      · exact ⟨c + 1, f, rfl⟩
      · exact ih (c + 1) e he'

/-- If `pat` occurs in `a ++ pat` only as the final suffix, the scanning
replace rewrites exactly that suffix. -/
theorem replaceFirstGo_of_unique (pat rep : List Char) (hpat : pat ≠ []) :
    ∀ (a : List Char), (∀ i, pat <+: (a ++ pat).drop i → i = a.length) →
      replaceFirstGo pat rep (a ++ pat) = a ++ rep := by
  intro a
  induction a with
  | nil =>
    intro _
    match pat, hpat with
    | c :: s, _ =>
      have hstep : replaceFirstGo (c :: s) rep (c :: s)
          = if (c :: s) <+: (c :: s) then rep ++ ((c :: s).drop (c :: s).length)
            else c :: replaceFirstGo (c :: s) rep s := rfl
      simp only [List.nil_append, hstep, if_pos (List.prefix_refl (c :: s)),
        List.drop_length, List.append_nil]
  | cons c a' ih =>
    intro hu
    have h0 : ¬ pat <+: c :: (a' ++ pat) := by
      intro hp
      have h00 := hu 0 (by simpa using hp)
      simp only [List.length_cons] at h00
      omega
    have hu' : ∀ i, pat <+: (a' ++ pat).drop i → i = a'.length := by
      intro i hp
      have h01 := hu (i + 1) (by simpa [List.drop_succ_cons] using hp)
      simp only [List.length_cons] at h01
      omega
    have hstep : replaceFirstGo pat rep (c :: (a' ++ pat))
        = if pat <+: c :: (a' ++ pat) then rep ++ ((c :: (a' ++ pat)).drop pat.length)
          else c :: replaceFirstGo pat rep (a' ++ pat) := rfl
    calc replaceFirstGo pat rep ((c :: a') ++ pat)
        = replaceFirstGo pat rep (c :: (a' ++ pat)) := by rw [List.cons_append]
      _ = c :: replaceFirstGo pat rep (a' ++ pat) := by rw [hstep, if_neg h0]
      _ = c :: (a' ++ rep) := by rw [ih hu']
      _ = (c :: a') ++ rep := by rw [List.cons_append]

/-- `replaceFirstL` on a string that ends with the (unique occurrence of
the) pattern replaces that trailing occurrence. -/
theorem replaceFirstL_of_unique (pat rep a : List Char) (hpat : pat ≠ [])
    (hu : ∀ i, i < (a ++ pat).length → pat <+: (a ++ pat).drop i → i = a.length) :
    replaceFirstL pat rep (a ++ pat) = a ++ rep := by
  unfold replaceFirstL
  rw [if_neg hpat]
  apply replaceFirstGo_of_unique pat rep hpat
  intro i hp
  by_cases hi : i < (a ++ pat).length
  · exact hu i hi hp
  · have hnil : (a ++ pat).drop i = [] :=
      List.drop_eq_nil_of_le (Nat.le_of_not_lt hi)
    rw [hnil] at hp
    exact absurd (List.prefix_nil.mp hp) hpat

/-- `splitSlash` always returns at least one segment. -/
theorem splitSlash_ne_nil : ∀ (l : List Char), splitSlash l ≠ [] := by
  intro l
  induction l with
  | nil => simp [splitSlash]
  | cons c s ih =>
    by_cases hc : c = '/'
    · simp [splitSlash, hc]
    · rcases hs : splitSlash s with _ | ⟨t, ts⟩
      · exact absurd hs ih
      · simp [splitSlash, hc, hs]

/-- `splitSlash` of any list is a nonempty list of segments. -/
theorem splitSlash_exists_cons (l : List Char) : ∃ h t, splitSlash l = h :: t := by
  rcases hx : splitSlash l with _ | ⟨h, t⟩
  · exact absurd hx (splitSlash_ne_nil l)
  · exact ⟨h, t, rfl⟩

/-- A non-separator head character joins the first segment. -/
theorem splitSlash_cons_of_ne (c : Char) (s : List Char) (hc : ¬ c = '/')
    {h : List Char} {t : List (List Char)} (hs : splitSlash s = h :: t) :
    splitSlash (c :: s) = (c :: h) :: t := by
  simp [splitSlash, hc, hs]

/-- A separator head character opens an empty first segment. -/
theorem splitSlash_cons_slash (s : List Char) :
    splitSlash ('/' :: s) = [] :: splitSlash s := by
  simp [splitSlash]

/-- Prepending separator-free characters extends the first segment and
leaves the remaining segments unchanged. -/
theorem splitSlash_append_left (a : List Char) (ha : ∀ c ∈ a, c ≠ '/') :
    ∀ (s : List Char) (h : List Char) (t : List (List Char)),
      splitSlash s = h :: t → splitSlash (a ++ s) = (a ++ h) :: t := by
  induction a with
  | nil => intro s h t hs; simpa using hs
  | cons c a' ih =>
    intro s h t hs
    have hc : c ≠ '/' := ha c (List.mem_cons_self c a')
    have ha' : ∀ x ∈ a', x ≠ '/' := fun x hx => ha x (List.mem_cons_of_mem c hx)
    have h2 : splitSlash (c :: (a' ++ s)) = (c :: (a' ++ h)) :: t :=
      splitSlash_cons_of_ne c (a' ++ s) hc (ih ha' s h t hs)
    simpa using h2

/-- A separator-free list is a single segment. -/
theorem splitSlash_of_no_slash (a : List Char) (ha : ∀ c ∈ a, c ≠ '/') :
    splitSlash a = [a] := by
  have h := splitSlash_append_left a ha [] [] [] rfl
  simpa using h

/-- Appending separator-free characters rewrites only the last segment,
which then carries the appended characters as a suffix; all other segments
are unchanged. -/
theorem splitSlash_append_right (a : List Char) (ha : ∀ c ∈ a, c ≠ '/') :
    ∀ s : List Char,
      List.Forall₂ (fun x y => x = y ∨ a <:+ x) (splitSlash (s ++ a)) (splitSlash s) := by
  intro s
  induction s with
  | nil =>
    rw [List.nil_append, splitSlash_of_no_slash a ha]
    exact List.Forall₂.cons (Or.inr (List.suffix_refl a)) List.Forall₂.nil
  | cons c s' ih =>
    by_cases hc : c = '/'
    · subst hc
      rw [List.cons_append, splitSlash_cons_slash, splitSlash_cons_slash]
      exact List.Forall₂.cons (Or.inl rfl) ih
    · obtain ⟨h1, t1, hst1⟩ := splitSlash_exists_cons (s' ++ a)
      obtain ⟨h2, t2, hst2⟩ := splitSlash_exists_cons s'
      rw [List.cons_append, splitSlash_cons_of_ne c _ hc hst1,
        splitSlash_cons_of_ne c _ hc hst2]
      have hf := ih
      rw [hst1, hst2] at hf
      rcases List.forall₂_cons.mp hf with ⟨hh, ht⟩
      refine List.Forall₂.cons ?_ ht
      rcases hh with heq | hsuf
      · exact Or.inl (by rw [heq])
      · exact Or.inr (hsuf.trans (List.suffix_cons c h1))

/-- Worker version of `splitSlash_replaceFirst` for a nonempty pattern:
every segment of the rewritten list is a segment of the original list or
contains the replacement as an infix. -/
theorem splitSlash_replaceFirstGo (pat rep : List Char)
    (hpat : ∀ c ∈ pat, c ≠ '/') (hrep : ∀ c ∈ rep, c ≠ '/') :
    ∀ s : List Char,
      List.Forall₂ (fun x y => x = y ∨ rep <:+: x)
        (splitSlash (replaceFirstGo pat rep s)) (splitSlash s) := by
  intro s
  induction s with
  | nil => exact List.forall₂_same.mpr fun x _ => Or.inl rfl
  | cons c s' ih =>
    by_cases hpre : pat <+: (c :: s')
    · obtain ⟨r, hr⟩ := hpre
      have hdrop : (c :: s').drop pat.length = r := by
        rw [← hr, List.drop_left]
      have hgo : replaceFirstGo pat rep (c :: s') = rep ++ r := by
        have hstep : replaceFirstGo pat rep (c :: s')
            = if pat <+: (c :: s') then rep ++ ((c :: s').drop pat.length)
              else c :: replaceFirstGo pat rep s' := rfl
        rw [hstep, if_pos ⟨r, hr⟩, hdrop]
      obtain ⟨h, t, hst⟩ := splitSlash_exists_cons r
      have hL : splitSlash (rep ++ r) = (rep ++ h) :: t :=
        splitSlash_append_left rep hrep r h t hst
      have hR : splitSlash (c :: s') = (pat ++ h) :: t := by
        rw [← hr]; exact splitSlash_append_left pat hpat r h t hst
      rw [hgo, hL, hR]
      exact List.Forall₂.cons
        (Or.inr (List.IsPrefix.isInfix (List.prefix_append rep h)))
        (List.forall₂_same.mpr fun x _ => Or.inl rfl)
    · have hgo : replaceFirstGo pat rep (c :: s') = c :: replaceFirstGo pat rep s' := by
        have hstep : replaceFirstGo pat rep (c :: s')
            = if pat <+: (c :: s') then rep ++ ((c :: s').drop pat.length)
              else c :: replaceFirstGo pat rep s' := rfl
        rw [hstep, if_neg hpre]
      by_cases hc : c = '/'
      · subst hc
        rw [hgo, splitSlash_cons_slash, splitSlash_cons_slash]
        exact List.Forall₂.cons (Or.inl rfl) ih
      · obtain ⟨h1, t1, hst1⟩ := splitSlash_exists_cons (replaceFirstGo pat rep s')
        obtain ⟨h2, t2, hst2⟩ := splitSlash_exists_cons s'
        rw [hgo, splitSlash_cons_of_ne c _ hc hst1, splitSlash_cons_of_ne c _ hc hst2]
        have hf := ih
        rw [hst1, hst2] at hf
        rcases List.forall₂_cons.mp hf with ⟨hh, ht⟩
        refine List.Forall₂.cons ?_ ht
        rcases hh with heq | hinf
        · exact Or.inl (by rw [heq])
        · exact Or.inr (List.infix_cons hinf)

/-- Segment-wise effect of the JavaScript first-occurrence replace, for a
separator-free pattern and replacement: every segment of the result is a
segment of the original or contains the replacement as an infix. -/
theorem splitSlash_replaceFirst (pat rep : List Char)
    (hpat : ∀ c ∈ pat, c ≠ '/') (hrep : ∀ c ∈ rep, c ≠ '/') (s : List Char) :
    List.Forall₂ (fun x y => x = y ∨ rep <:+: x)
      (splitSlash (replaceFirstL pat rep s)) (splitSlash s) := by
  by_cases hp : pat = []
  · subst hp
    have hgo : replaceFirstL [] rep s = rep ++ s := rfl
    obtain ⟨h, t, hst⟩ := splitSlash_exists_cons s
    rw [hgo, splitSlash_append_left rep hrep s h t hst, hst]
    exact List.Forall₂.cons
      (Or.inr (List.IsPrefix.isInfix (List.prefix_append rep h)))
      (List.forall₂_same.mpr fun x _ => Or.inl rfl)
  · have hgo : replaceFirstL pat rep s = replaceFirstGo pat rep s := by
      unfold replaceFirstL; rw [if_neg hp]
    rw [hgo]
    exact splitSlash_replaceFirstGo pat rep hpat hrep s

/-- Members of the left list of a `Forall₂` are related to some member of
the right list. -/
theorem exists_rel_of_mem_forall₂ {α β : Type} {r : α → β → Prop}
    {l₁ : List α} {l₂ : List β} (hf : List.Forall₂ r l₁ l₂) {x : α} (hx : x ∈ l₁) :
    ∃ y ∈ l₂, r x y := by
  induction hf with
  | nil => exact absurd hx (List.not_mem_nil x)
  | cons hr ht ih =>
    rcases List.mem_cons.mp hx with rfl | hx'
    · exact ⟨_, List.mem_cons_self _ _, hr⟩
    · obtain ⟨y, hy, hxy⟩ := ih hx'
      exact ⟨y, List.mem_cons_of_mem _ hy, hxy⟩

/-- The basename scanned by `extnameL` contains no separator. -/
theorem extBasename_ne_slash (p : List Char) : ∀ c ∈ extBasename p, c ≠ '/' := by
  intro c hc
  unfold extBasename at hc
  rw [List.mem_reverse] at hc
  have h := List.mem_takeWhile_imp hc
  simpa using h

/-- Node's `path.extname` never contains a separator. -/
theorem extnameL_ne_slash (p : List Char) : ∀ c ∈ extnameL p, c ≠ '/' := by
  intro c hc
  unfold extnameL at hc
  split_ifs at hc <;>
    first
      | exact absurd hc (List.not_mem_nil c)
      | exact extBasename_ne_slash p c (List.mem_of_mem_drop hc)

/-! ### Claim theorems -/

/-- Claim C1, counterexample: for input `src/util/math.ts` with formats
`["cjs", {format:"es", outDir:"esm"}]`, the annotated destination paths are
not `lib/util/math.js` and `esm/util/math.js` as the claim states; the bare
`"cjs"` tag is normalized to the output directory `"cjs"`, so the first
path is `cjs/util/math.js`. -/
theorem C1_counterexample :
    (dispatchUnits [JsFormat.tag "cjs", JsFormat.spec "es" "esm"] "src/util/math.ts").map
        Prod.snd ≠ ["lib/util/math.js", "esm/util/math.js"]
      ∧ (dispatchUnits [JsFormat.tag "cjs", JsFormat.spec "es" "esm"] "src/util/math.ts").map
        Prod.snd = ["cjs/util/math.js", "esm/util/math.js"] := by
  decide

/-- Claim C1 as amended: for the input file `src/util/math.ts` with formats
`["cjs", {format:"es", outDir:"esm"}]`, `transformFile` dispatches exactly
two build units, with formats `cjs` and `es` and annotated destination paths
`cjs/util/math.js` (a bare tag uses the tag itself as output directory) and
`esm/util/math.js`. -/
theorem C1_amended_dispatch :
    dispatchUnits [JsFormat.tag "cjs", JsFormat.spec "es" "esm"] "src/util/math.ts"
      = [("cjs", "cjs/util/math.js"), ("es", "esm/util/math.js")] := by
  decide

/-- Claim C2: dispatch normalizes a bare format tag to a `{format, outDir}`
pair whose `outDir` is the tag itself, and uses an explicit pair unchanged. -/
theorem C2_tag_normalization :
    (∀ s : String, normalizeFormat (JsFormat.tag s) = (s, s))
      ∧ (∀ f d : String, normalizeFormat (JsFormat.spec f d) = (f, d)) :=
  ⟨fun _ => rfl, fun _ _ => rfl⟩

/-- Claim C3: for every input file, format, output directory and every
caller-supplied `rollupOptionsOutput` (value or function) and `buildOptions`
(value or function), the synthesized build configuration's output record has
`dir = dirname(resolve(outDir, transformFilePath))`, computed by
absolute-path resolution against the working directory; no caller override
changes it (a caller `dir` is overwritten by the spread order, and a caller
`buildOptions.rollupOptions.output` is concatenated after it by the merge). -/
theorem C3_output_dir_invariant (cwd fileRelativePath outputDir fmt : String)
    (buildOptions : Option (FnOrVal JsBuildOptions))
    (rollupOptionsOutput : Option (FnOrVal JsOutputOptions)) :
    ∃ ru o rest,
      (createBuildConfig cwd fileRelativePath buildOptions rollupOptionsOutput
          outputDir fmt).rollupOptions = some ru
        ∧ ru.output = some (o :: rest)
        ∧ o.dir = some (jsDirname (jsResolve cwd
            [outputDir, transformFilePath fileRelativePath])) := by
  obtain ⟨ru, rest, h1, h2⟩ :=
    mergeBuildOptions_output_head
      { assetsDir := some "./"
        cssCodeSplit := some true
        emptyOutDir := some false
        rollupOptions := some { output := some [synthesizedOutput cwd outputDir
          (transformFilePath fileRelativePath) fmt
          ((rollupOptionsOutput.map fun f =>
            f.resolve (transformFilePath fileRelativePath)).getD {})] }
        minify := some false }
      ((buildOptions.map fun f => f.resolve fileRelativePath).getD {})
      (synthesizedOutput cwd outputDir (transformFilePath fileRelativePath) fmt
        ((rollupOptionsOutput.map fun f =>
          f.resolve (transformFilePath fileRelativePath)).getD {}))
      [] rfl
  exact ⟨ru, _, rest, h1, h2, rfl⟩

/-- Claim C4, counterexample: `src/a.ts.ts` has extension `.ts`, and the
resolver replaces the first occurrence of that substring, producing
`a.js.ts` rather than `a.ts.js` (the trailing extension is untouched and
the resulting basename does not carry the compiled-output extension). -/
theorem C4_counterexample :
    transformFilePath "src/a.ts.ts" = "a.js.ts"
      ∧ transformFilePath "src/a.ts.ts" ≠ "a.ts.js" := by
  decide

/-- Claim C4 as amended: for every non-single-file-component input path with
a nonempty extension, the resolver replaces the first occurrence of the
extension substring in the stripped path with `.js`; when that extension
occurs in the stripped path only as its trailing extension, the result is
the stripped path with the extension replaced by `.js`. -/
theorem C4_first_occurrence (p a : String)
    (hne : jsExtname p ≠ "")
    (hvue : jsExtname p ≠ ".vue")
    (hsvelte : jsExtname p ≠ ".svelte")
    (hsplit : stripRoot p = a ++ jsExtname p)
    (hu : ∀ i, i < (stripRoot p).data.length →
      (jsExtname p).data <+: ((stripRoot p).data.drop i) → i = a.data.length) :
    transformFilePath p = a ++ ".js" := by
  have hbr : ¬ (jsExtname p = ".vue" ∨ jsExtname p = ".svelte") := by
    rintro (h | h)
    · exact hvue h
    · exact hsvelte h
  unfold transformFilePath
  rw [if_neg hbr]
  apply String.ext
  show replaceFirstL (jsExtname p).data ".js".data (stripRoot p).data = (a ++ ".js").data
  have hdata : (stripRoot p).data = a.data ++ (jsExtname p).data := by
    rw [hsplit, String.data_append]
  have hne' : (jsExtname p).data ≠ [] := fun h => hne (String.ext (h.trans rfl))
  rw [hdata] at hu
  rw [hdata, String.data_append]
  exact replaceFirstL_of_unique _ _ _ hne' hu

/-- Witness for C4 as amended: `src/util/math.ts` (whose `.ts` occurs only
as the trailing extension of `util/math.ts`) resolves to `util/math.js`. -/
theorem C4_first_occurrence_witness :
    transformFilePath "src/util/math.ts" = "util/math" ++ ".js" :=
  C4_first_occurrence "src/util/math.ts" "util/math" (by decide) (by decide) (by decide)
    (by decide) (by decide)

/-- Claim C5, counterexample: for the input `src/src/a.ts` the resolver
strips only the first segment, so the resolved output path `src/a.js` does
contain the original root segment `src`. -/
theorem C5_counterexample :
    rootSeg "src/src/a.ts" ∈ components (transformFilePath "src/src/a.ts")
      ∧ transformFilePath "src/src/a.ts" = "src/a.js" := by
  decide

/-- Claim C5 as amended: for every input relative path whose first (root)
segment neither reappears as a path component of the remainder after the
first separator nor contains the substring `.js`, the resolved output path
does not contain the original root segment as a path component. -/
theorem C5_no_root_component (p : String)
    (h1 : rootSeg p ∉ components (stripRoot p))
    (h2 : jsIncludes (rootSeg p) ".js" = false) :
    rootSeg p ∉ components (transformFilePath p) := by
  have h2' : ¬ (".js".data <:+: (rootSeg p).data) := of_decide_eq_false h2
  intro hmem
  obtain ⟨l, hl, hlm⟩ := List.mem_map.mp hmem
  have hld : l = (rootSeg p).data := by rw [← hlm]
  have hrel : List.Forall₂ (fun x y => x = y ∨ ".js".data <:+: x)
      (splitSlash (transformFilePath p).data) (splitSlash (stripRoot p).data) := by
    by_cases hbr : jsExtname p = ".vue" ∨ jsExtname p = ".svelte"
    · have hout : (transformFilePath p).data = (stripRoot p).data ++ ".js".data := by
        unfold transformFilePath; rw [if_pos hbr, String.data_append]
      rw [hout]
      exact (splitSlash_append_right (".js".data) (by decide) (stripRoot p).data).imp
        fun x y hxy => hxy.imp id fun hs => List.IsSuffix.isInfix hs
    · have hout : (transformFilePath p).data
          = replaceFirstL (jsExtname p).data ".js".data (stripRoot p).data := by
        unfold transformFilePath; rw [if_neg hbr]; rfl
      rw [hout]
      exact splitSlash_replaceFirst (jsExtname p).data ".js".data
        (extnameL_ne_slash p.data) (by decide) (stripRoot p).data
  obtain ⟨y, hy, hxy⟩ := exists_rel_of_mem_forall₂ hrel hl
  rcases hxy with heq | hinf
  · exact h1 (List.mem_map.mpr ⟨y, hy, by rw [← heq, hlm]⟩)
  · rw [hld] at hinf
    exact h2' hinf

/-- Witness for C5 as amended: `src/util/math.ts` has root segment `src`,
which does not recur in `util/math.ts` and does not contain `.js`, so the
resolved output path `util/math.js` has no `src` component. -/
theorem C5_no_root_component_witness :
    rootSeg "src/util/math.ts" ∉ components (transformFilePath "src/util/math.ts") :=
  C5_no_root_component "src/util/math.ts" (by decide) (by decide)

/-- Claim C6: under the default policy, a module id whose normalized path
equals the absolute-resolved path of the owning input file is classified as
external (the classifier returns `false`), for every working directory,
owner file (hence regardless of its extension) and importer context. -/
theorem C6_self_reference_external (cwd fileRelativePath id : String)
    (importer : Option String) (isResolved : Option Bool)
    (h : jsNormalize id = jsResolve cwd [fileRelativePath]) :
    lastRollupOptionsExternalDefault cwd fileRelativePath id importer isResolved = false := by
  have hd : decide (jsNormalize id = jsResolve cwd [fileRelativePath]) = true :=
    decide_eq_true h
  simp [lastRollupOptionsExternalDefault, hd]

/-- Witness for C6: owner file `src/a.ts` in working directory `/proj`, and
the module id `/proj/src/a.ts` (its absolute-resolved path) classifies as
external. -/
theorem C6_self_reference_external_witness :
    lastRollupOptionsExternalDefault "/proj" "src/a.ts" "/proj/src/a.ts" none none = false :=
  C6_self_reference_external "/proj" "src/a.ts" "/proj/src/a.ts" none none (by decide)

/-- Claim C7: under the default policy, every module id ending in `.css`,
`.scss`, `.less`, `.sass`, `.svg` or `.json` is classified as external (the
classifier returns `false`): a suffix occurrence is in particular a
substring occurrence, which the `includes`-based checks detect. -/
theorem C7_asset_suffix_external (cwd fileRelativePath id : String)
    (importer : Option String) (isResolved : Option Bool)
    (h : ∃ e ∈ ([".css", ".scss", ".less", ".sass", ".svg", ".json"] : List String),
      e.data <:+ id.data) :
    lastRollupOptionsExternalDefault cwd fileRelativePath id importer isResolved = false := by
  obtain ⟨e, he, hsuf⟩ := h
  simp only [List.mem_cons, List.mem_nil_iff, or_false] at he
  rcases he with rfl | rfl | rfl | rfl | rfl | rfl <;>
    simp [lastRollupOptionsExternalDefault, jsIncludes,
      decide_eq_true (List.IsSuffix.isInfix hsuf)]

/-- Witness for C7: the module id `theme/style.css` classifies as external. -/
theorem C7_asset_suffix_external_witness :
    lastRollupOptionsExternalDefault "/proj" "src/a.ts" "theme/style.css" none none = false :=
  C7_asset_suffix_external "/proj" "src/a.ts" "theme/style.css" none none
    ⟨".css", by simp, by decide⟩

/-- Claim C8: under the task-pool contract, when some units fail the other
files still complete: every file whose unit succeeds gets a per-file success
callback event, the red diagnostic line is emitted iff the pool reports
`hasPartialError`, and the batch-end callback still fires with the number of
files that succeeded. -/
theorem C8_partial_failure_isolation (files : List String) (formats : List JsFormat)
    (ok : String → String → String → Bool) (c0 : Nat) (f : String)
    (hf : f ∈ files) (hok : unitOk formats ok f = true) :
    (∃ n, BatchEvent.fileSuccess n f ∈ (buildFilesRun files formats ok c0).2)
      ∧ (BatchEvent.redLine ∈ (buildFilesRun files formats ok c0).2
          ↔ (runPool formats ok files 0).2.2 = true)
      ∧ BatchEvent.endBuild (files.countP (unitOk formats ok))
          ∈ (buildFilesRun files formats ok c0).2 := by
  refine ⟨?_, ?_, ?_⟩
  · obtain ⟨n, hn⟩ := runPool_success_mem formats ok files 0 f hf hok
    refine ⟨n, ?_⟩
    simp only [buildFilesRun]
    exact List.mem_append_left _ (List.mem_append_left _ (List.mem_cons_of_mem _ hn))
  · simp only [buildFilesRun]
    constructor
    · intro hmem
      rcases List.mem_append.mp hmem with hmem1 | hmem2
      · rcases List.mem_append.mp hmem1 with hmem3 | hmem4
        · rcases List.mem_cons.mp hmem3 with heq | hpool
          · exact absurd heq (by simp)
          · obtain ⟨n, g, hng⟩ := runPool_events_are_success formats ok files 0 _ hpool
            exact absurd hng (by simp)
        · cases hc : (runPool formats ok files 0).2.2
          · rw [hc] at hmem4; simp at hmem4
          · rfl
      · simp at hmem2
    · intro herr
      exact List.mem_append_left _ (List.mem_append_right _ (by simp [herr]))
  · simp only [buildFilesRun]
    apply List.mem_append_right
    rw [runPool_count formats ok files 0]
    simp

/-- Witness for C8, the spec's 3-file scenario: with files `a`, `b`, `c`
where only `b`'s build fails, file `a` (like `c`) still reports success, the
red line is emitted iff the pool saw a failure (it did), and the batch-end
callback fires with the count of successes (here `countP` evaluates to 2 of
3). -/
theorem C8_partial_failure_isolation_witness :
    (∃ n, BatchEvent.fileSuccess n "a"
        ∈ (buildFilesRun ["a", "b", "c"] [JsFormat.tag "cjs"]
            (fun f _ _ => !(f == "b")) 7).2)
      ∧ (BatchEvent.redLine ∈ (buildFilesRun ["a", "b", "c"] [JsFormat.tag "cjs"]
            (fun f _ _ => !(f == "b")) 7).2
          ↔ (runPool [JsFormat.tag "cjs"] (fun f _ _ => !(f == "b"))
              ["a", "b", "c"] 0).2.2 = true)
      ∧ BatchEvent.endBuild
          (["a", "b", "c"].countP (unitOk [JsFormat.tag "cjs"] fun f _ _ => !(f == "b")))
          ∈ (buildFilesRun ["a", "b", "c"] [JsFormat.tag "cjs"]
              (fun f _ _ => !(f == "b")) 7).2 :=
  C8_partial_failure_isolation ["a", "b", "c"] [JsFormat.tag "cjs"]
    (fun f _ _ => !(f == "b")) 7 "a" (by decide) (by decide)

/-- Claim C9: `buildFiles` resets the process-wide counter to zero before
dispatch and again after the batch-end callback, and each successful file
increments it exactly once, so two sequential batches in which every file
builds successfully report final counts equal to their own file counts, with
no carry-over from the inherited counter value or from the first batch. -/
theorem C9_counter_reset (c0 : Nat) (files1 files2 : List String) (formats : List JsFormat)
    (ok1 ok2 : String → String → String → Bool)
    (h1 : ∀ f ∈ files1, unitOk formats ok1 f = true)
    (h2 : ∀ f ∈ files2, unitOk formats ok2 f = true) :
    BatchEvent.endBuild files1.length ∈ (buildFilesRun files1 formats ok1 c0).2
      ∧ (buildFilesRun files1 formats ok1 c0).1 = 0
      ∧ BatchEvent.endBuild files2.length
          ∈ (buildFilesRun files2 formats ok2 (buildFilesRun files1 formats ok1 c0).1).2
      ∧ (buildFilesRun files2 formats ok2 (buildFilesRun files1 formats ok1 c0).1).1 = 0 := by
  have key : ∀ (files : List String) (ok : String → String → String → Bool) (c : Nat),
      (∀ f ∈ files, unitOk formats ok f = true) →
      BatchEvent.endBuild files.length ∈ (buildFilesRun files formats ok c).2 := by
    intro files ok c hall
    simp only [buildFilesRun]
    apply List.mem_append_right
    have hlen : files.countP (unitOk formats ok) = files.length :=
      List.countP_eq_length.mpr hall
    rw [runPool_count formats ok files 0, hlen]
    simp
  exact ⟨key files1 ok1 c0 h1, rfl, key files2 ok2 _ h2, rfl⟩

/-- Witness for C9, the spec's 5-then-3 scenario: two sequential batches of
5 and 3 all-successful files report final counts 5 and 3, starting from an
arbitrary inherited counter value 42, and leave the counter at 0 both
times. -/
theorem C9_counter_reset_witness :
    BatchEvent.endBuild (["f1", "f2", "f3", "f4", "f5"] : List String).length
        ∈ (buildFilesRun ["f1", "f2", "f3", "f4", "f5"]
            [JsFormat.tag "cjs", JsFormat.spec "es" "esm"] (fun _ _ _ => true) 42).2
      ∧ (buildFilesRun ["f1", "f2", "f3", "f4", "f5"]
          [JsFormat.tag "cjs", JsFormat.spec "es" "esm"] (fun _ _ _ => true) 42).1 = 0
      ∧ BatchEvent.endBuild (["g1", "g2", "g3"] : List String).length
          ∈ (buildFilesRun ["g1", "g2", "g3"]
              [JsFormat.tag "cjs", JsFormat.spec "es" "esm"] (fun _ _ _ => true)
              (buildFilesRun ["f1", "f2", "f3", "f4", "f5"]
                [JsFormat.tag "cjs", JsFormat.spec "es" "esm"] (fun _ _ _ => true) 42).1).2
      ∧ (buildFilesRun ["g1", "g2", "g3"]
          [JsFormat.tag "cjs", JsFormat.spec "es" "esm"] (fun _ _ _ => true)
          (buildFilesRun ["f1", "f2", "f3", "f4", "f5"]
            [JsFormat.tag "cjs", JsFormat.spec "es" "esm"] (fun _ _ _ => true) 42).1).1 = 0 :=
  C9_counter_reset 42 ["f1", "f2", "f3", "f4", "f5"] ["g1", "g2", "g3"]
    [JsFormat.tag "cjs", JsFormat.spec "es" "esm"] (fun _ _ _ => true) (fun _ _ _ => true)
    (by decide) (by decide)

/-- Claim C10: for every input path whose extension is empty (so in
particular not a single-file-component path), the resolver's
`replace(extname, '.js')` step degenerates to an empty-pattern replace,
which inserts `.js` at the start of the stripped path instead of appending
it. -/
theorem C10_empty_extension (p : String) (hext : jsExtname p = "") :
    transformFilePath p = ".js" ++ stripRoot p := by
  have h1 : ¬ (jsExtname p = ".vue" ∨ jsExtname p = ".svelte") := by
    rw [hext]; decide
  unfold transformFilePath
  rw [if_neg h1, hext]
  rfl

/-- Witness for C10: `src/Makefile` has empty extension and resolves to
`.js` prepended to `Makefile` (that is, `.jsMakefile`), not `Makefile.js`. -/
theorem C10_empty_extension_witness :
    transformFilePath "src/Makefile" = ".js" ++ stripRoot "src/Makefile" :=
  C10_empty_extension "src/Makefile" (by decide)

end BuildFiles
